import Mathlib

/-!
Verification of the native-call ABI layer of the JIT code generator
(Source/Core/Common/Src/x64ABI.cpp).

The file shallowly embeds the emitter functions of that translation unit:
each `ABI_*` function is modelled as a Lean function producing the list of
abstract instructions it appends to the code buffer, and a small machine
semantics (`step`/`exec`) interprets those instructions on a state of
general-purpose registers, vector registers, a stack pointer and memory.

The four compilation targets of the source are modelled by `Abi`:
`win64`/`unix64` are the two `_M_X64` builds (the repository defines
`_M_X64` on every 64-bit x86 target, Windows or not, as witnessed by the
`defined(_WIN32) && defined(_M_X64)` shadow-space test and by the
"Shared code between Win32 and Unix32" comment under `_M_IX86`),
`win32` is the 32-bit `_WIN32` build and `unix32` the remaining 32-bit
non-Windows build.

Unsigned 32-bit (`unsigned int`) and 64-bit (`u64`) C arithmetic is
embedded as `Nat` arithmetic with explicit reductions `% 2^32` / `% 2^64`
at the operations where wrap-around can occur; the C `int`-typed
`& 0xf` of a possibly negative quantity is embedded as `Int.emod _ 16`
(both produce the value's nonnegative residue mod 16).
-/

namespace X64ABI

/-- The compilation target selected by the preprocessor in x64ABI.cpp. -/
inductive Abi
  | win64
  | unix64
  | win32
  | unix32
  deriving DecidableEq

/-- Bytes moved by a general-purpose register push: 8 under `_M_X64`, else 4. -/
def regSize : Abi → Nat
  | .win64 => 8
  | .unix64 => 8
  | .win32 => 4
  | .unix32 => 4

/-- Win64 shadow space: `0x20` only when `defined(_WIN32) && defined(_M_X64)`. -/
def shadow : Abi → Nat
  | .win64 => 0x20
  | .unix64 => 0
  | .win32 => 0
  | .unix32 => 0

/-- Embedding of `XEmitter::ABI_GetAlignedFrameSize(unsigned int frameSize, bool noProlog)`.

Branches follow the preprocessor of the source exactly:
* `_M_X64` (both 64-bit targets): `frameSize = noProlog ? 0x28 : 0;`
* 32-bit `_WIN32`: `frameSize = (frameSize + 3) & -4;`
* other 32-bit: subtract `existingAlignment` (`0xc` if `noProlog` else 0),
  round up with `(frameSize + 15) & -16`, add `existingAlignment` back.

`& -4` and `& -16` on `unsigned int` are `&&& 0xFFFFFFFC` / `&&& 0xFFFFFFF0`. -/
def ABI_GetAlignedFrameSize (abi : Abi) (frameSize : Nat) (noProlog : Bool) : Nat :=
  match abi with
  | .win64 | .unix64 => if noProlog then 0x28 else 0
  | .win32 => ((frameSize % 2 ^ 32 + 3) % 2 ^ 32) &&& 0xFFFFFFFC
  | .unix32 =>
      let existingAlignment : Nat := if noProlog then 0xc else 0
      let f1 := (frameSize % 2 ^ 32 + 2 ^ 32 - existingAlignment) % 2 ^ 32
      let f2 := ((f1 + 15) % 2 ^ 32) &&& 0xFFFFFFF0
      (f2 + existingAlignment) % 2 ^ 32

/-- Clearing the low `k` bits of a number below `2^n` with the mask
`2^n - 2^k` is the same as rounding down to a multiple of `2^k`. -/
theorem and_mask_eq {n k : Nat} (hk : k ≤ n) (x : Nat) (hx : x < 2 ^ n) :
    x &&& (2 ^ n - 2 ^ k) = x / 2 ^ k * 2 ^ k := by
  have hmask : 2 ^ n - 2 ^ k = 2 ^ k * (2 ^ (n - k) - 1) := by
    have h1 : 2 ^ k * 2 ^ (n - k) = 2 ^ n := by
      rw [← pow_add]
      congr 1
      omega
    have h2 : 1 ≤ 2 ^ (n - k) := Nat.one_le_two_pow
    calc 2 ^ n - 2 ^ k = 2 ^ k * 2 ^ (n - k) - 2 ^ k := by rw [h1]
      _ = 2 ^ k * (2 ^ (n - k) - 1) := (Nat.mul_sub_one _ _).symm
  have hrhs : x / 2 ^ k * 2 ^ k = 2 ^ k * (x / 2 ^ k) := Nat.mul_comm _ _
  rw [hmask, hrhs]
  apply Nat.eq_of_testBit_eq
  intro i
  rw [Nat.testBit_and, Nat.testBit_mul_pow_two, Nat.testBit_mul_pow_two]
  by_cases hik : k ≤ i
  · have : Nat.testBit (2 ^ (n - k) - 1) (i - k) = decide (i - k < n - k) :=
      Nat.testBit_two_pow_sub_one _ _
    rw [this]
    by_cases hin : i < n
    · have h3 : Nat.testBit (x / 2 ^ k) (i - k) = Nat.testBit x (k + (i - k)) := by
        rw [← Nat.shiftRight_eq_div_pow, Nat.testBit_shiftRight]
      have h4 : k + (i - k) = i := by omega
      have h5 : i - k < n - k := by omega
      simp [hik, hin, h3, h4, h5]
    · have hxi : Nat.testBit x i = false :=
        Nat.testBit_lt_two_pow (lt_of_lt_of_le hx (Nat.pow_le_pow_right (by omega) (by omega)))
      have h3 : Nat.testBit (x / 2 ^ k) (i - k) = Nat.testBit x (k + (i - k)) := by
        rw [← Nat.shiftRight_eq_div_pow, Nat.testBit_shiftRight]
      have h4 : k + (i - k) = i := by omega
      simp [h3, h4, hxi]
  · simp [hik]

theorem and_mask_4 (x : Nat) (hx : x < 2 ^ 32) :
    x &&& 0xFFFFFFFC = x / 4 * 4 := by
  have h := and_mask_eq (n := 32) (k := 2) (by omega) x hx
  norm_num at h
  exact h

theorem and_mask_16 (x : Nat) (hx : x < 2 ^ 32) :
    x &&& 0xFFFFFFF0 = x / 16 * 16 := by
  have h := and_mask_eq (n := 32) (k := 4) (by omega) x hx
  norm_num at h
  exact h

/-- The computed aligned frame size always fits in an `unsigned int`. -/
theorem ABI_GetAlignedFrameSize_lt (abi : Abi) (fs : Nat) (np : Bool) :
    ABI_GetAlignedFrameSize abi fs np < 2 ^ 32 := by
  cases abi <;> simp only [ABI_GetAlignedFrameSize]
  · split <;> norm_num
  · split <;> norm_num
  · rw [and_mask_4 _ (Nat.mod_lt _ (by norm_num))]
    have := Nat.mod_lt (fs % 2 ^ 32 + 3) (y := 2 ^ 32) (by norm_num)
    omega
  · exact Nat.mod_lt _ (by norm_num)

/-- C1 (counterexample): on Win64 with `frameSize = 0, noProlog = true` the
code returns `0x28` = 40, not the 32 the claim states. -/
theorem ABI_GetAlignedFrameSize_win64_ne_32 :
    ABI_GetAlignedFrameSize .win64 0 true = 40 ∧ (40 : Nat) ≠ 32 := by
  constructor
  · rfl
  · decide

/-- C1 (amended): for the Win64 ABI, `ABI_GetAlignedFrameSize` ignores
`frameSize` entirely and returns `0x28` (40 = the 0x20-byte shadow space
plus 8 alignment bytes) when `noProlog` is true, and 0 when it is false. -/
theorem ABI_GetAlignedFrameSize_win64_eq (fs fs' : Nat) (np : Bool) :
    ABI_GetAlignedFrameSize .win64 fs np = ABI_GetAlignedFrameSize .win64 fs' np ∧
    ABI_GetAlignedFrameSize .win64 fs true = 0x28 ∧
    ABI_GetAlignedFrameSize .win64 fs false = 0 := by
  refine ⟨rfl, rfl, rfl⟩

/-- C2 (counterexample): `ABI_GetAlignedFrameSize(0, true)` is not 16 on the
Unix64 build (it is `0x28` = 40: Unix64 is an `_M_X64` target and takes the
same branch as Win64), and not 16 on the 32-bit non-Windows build either
(there the subtract/round/add computation yields 12). -/
theorem ABI_GetAlignedFrameSize_unix64_ne_16 :
    ABI_GetAlignedFrameSize .unix64 0 true ≠ 16 ∧
    ABI_GetAlignedFrameSize .unix32 0 true ≠ 16 := by
  constructor
  · decide
  · decide

/-- C2 (amended): the subtract-the-consumed-amount / round-up-to-16 /
add-back computation is the 32-bit non-Windows branch, not the Unix64 one.
Unix64 is an `_M_X64` target: it ignores `frameSize` and returns `0x28`
when `noProlog` is true and 0 otherwise; in particular
`ABI_GetAlignedFrameSize(0, true) = 0x28` on Unix64, while on the 32-bit
non-Windows branch (consumed amount `0xc`) it evaluates to 12. -/
theorem ABI_GetAlignedFrameSize_unix64_eq (fs : Nat) (np : Bool) :
    ABI_GetAlignedFrameSize .unix64 fs np = (if np then 0x28 else 0) ∧
    ABI_GetAlignedFrameSize .unix64 0 true = 0x28 ∧
    ABI_GetAlignedFrameSize .unix32 0 true = 0xc := by
  refine ⟨rfl, rfl, by decide⟩

/-- C8: for every ABI, every frame size and every `noProlog` flag,
`ABI_GetAlignedFrameSize` is idempotent. -/
theorem ABI_GetAlignedFrameSize_idempotent (abi : Abi) (fs : Nat) (np : Bool) :
    ABI_GetAlignedFrameSize abi (ABI_GetAlignedFrameSize abi fs np) np =
      ABI_GetAlignedFrameSize abi fs np := by
  cases abi
  case win64 => simp only [ABI_GetAlignedFrameSize]
  case unix64 => simp only [ABI_GetAlignedFrameSize]
  case win32 =>
    simp only [ABI_GetAlignedFrameSize]
    set z := (fs % 2 ^ 32 + 3) % 2 ^ 32 with hz
    have hzlt : z < 2 ^ 32 := Nat.mod_lt _ (by norm_num)
    rw [and_mask_4 z hzlt]
    set m := z / 4 * 4 with hm
    have hm4 : m % 4 = 0 := by omega
    have hmlt : m ≤ z := by omega
    have h1 : m % 2 ^ 32 = m := Nat.mod_eq_of_lt (by omega)
    have h2 : (m + 3) % 2 ^ 32 = m + 3 := Nat.mod_eq_of_lt (by omega)
    rw [h1, h2, and_mask_4 (m + 3) (by omega)]
    omega
  case unix32 =>
    simp only [ABI_GetAlignedFrameSize]
    set e : Nat := if np then 0xc else 0 with he
    have helt : e ≤ 12 := by rw [he]; split <;> omega
    set f1 := (fs % 2 ^ 32 + 2 ^ 32 - e) % 2 ^ 32 with hf1
    have hf1lt : f1 < 2 ^ 32 := Nat.mod_lt _ (by norm_num)
    set w := (f1 + 15) % 2 ^ 32 with hw
    have hwlt : w < 2 ^ 32 := Nat.mod_lt _ (by norm_num)
    rw [and_mask_16 w hwlt]
    set f2 := w / 16 * 16 with hf2
    have hf216 : f2 % 16 = 0 := by omega
    have hf2le : f2 ≤ w := by omega
    have hRlt : f2 + e < 2 ^ 32 := by omega
    have hR : (f2 + e) % 2 ^ 32 = f2 + e := Nat.mod_eq_of_lt hRlt
    rw [hR]
    have h1 : ((f2 + e) % 2 ^ 32 + 2 ^ 32 - e) % 2 ^ 32 = f2 := by
      rw [hR]
      have : f2 + e + 2 ^ 32 - e = f2 + 2 ^ 32 := by omega
      rw [this, Nat.add_mod_right, Nat.mod_eq_of_lt (by omega)]
    rw [h1]
    have h2 : (f2 + 15) % 2 ^ 32 = f2 + 15 := Nat.mod_eq_of_lt (by omega)
    rw [h2, and_mask_16 (f2 + 15) (by omega)]
    omega

/-! ## Abstract instructions and machine semantics

The instruction emitter (`PUSH`, `POP`, `MOVAPD`, `SUB`, `ADD`, `MOV`,
`CALL`, `CALLptr`) is an external collaborator of this translation unit;
we model the operations x64ABI.cpp requests from it as an abstract
instruction type, and give those instructions their operational meaning on
a machine state of 16 general-purpose registers, 16 vector registers, a
stack pointer and byte-addressed memory (each write keyed by the operand's
base address). -/

/-- The immediate encoding chosen for a stack adjustment (`Imm8` / `Imm32`). -/
inductive ImmW
  | imm8
  | imm32
  deriving DecidableEq

/-- Instructions that x64ABI.cpp asks the emitter to append. -/
inductive Instr
  | push (r : Fin 16)
  | pop (r : Fin 16)
  | subRsp (n : Nat) (w : ImmW)
  | addRsp (n : Nat) (w : ImmW)
  | storeXmm (off : Nat) (x : Fin 16)
  | loadXmm (x : Fin 16) (off : Nat)
  | movRR (width : Nat) (dst src : Fin 16)
  | movRI (width : Nat) (dst : Fin 16) (v : Nat)
  | pushImm (width : Nat) (v : Nat)
  | callDirect (target : Nat)
  | callPtr (r : Fin 16)
  deriving DecidableEq

/-- Machine state: general-purpose registers, vector registers, the stack
pointer and memory. -/
structure MState where
  gpr : Fin 16 → Nat
  xmm : Fin 16 → Nat
  rsp : Int
  mem : Int → Nat

attribute [ext] MState

/-- Point update of a register file. -/
def updF (f : Fin 16 → Nat) (i : Fin 16) (v : Nat) : Fin 16 → Nat :=
  fun j => if j = i then v else f j

/-- Point update of memory at a base address. -/
def updM (m : Int → Nat) (a : Int) (v : Nat) : Int → Nat :=
  fun b => if b = a then v else m b

@[simp] theorem updF_at (f : Fin 16 → Nat) (i : Fin 16) (v : Nat) :
    updF f i v i = v := by simp [updF]

theorem updF_ne (f : Fin 16 → Nat) {i j : Fin 16} (v : Nat) (h : j ≠ i) :
    updF f i v j = f j := by simp [updF, h]

@[simp] theorem updF_self (f : Fin 16 → Nat) (i : Fin 16) :
    updF f i (f i) = f := by
  funext j
  by_cases h : j = i <;> simp [updF, h]

@[simp] theorem updM_at (m : Int → Nat) (a : Int) (v : Nat) :
    updM m a v a = v := by simp [updM]

theorem updM_ne (m : Int → Nat) {a b : Int} (v : Nat) (h : b ≠ a) :
    updM m a v b = m b := by simp [updM, h]

/-- One step of the machine: the meaning of each emitted instruction.
`push`/`pop` move `regSize abi` bytes; a `pushImm` of a given bit width
moves `width / 8` bytes; `call` instructions are control transfers and do
not change the modelled state. -/
def step (abi : Abi) (s : MState) : Instr → MState
  | .push r => { s with mem := updM s.mem (s.rsp - (regSize abi : Int)) (s.gpr r),
                        rsp := s.rsp - (regSize abi : Int) }
  | .pop r => { s with gpr := updF s.gpr r (s.mem s.rsp),
                       rsp := s.rsp + (regSize abi : Int) }
  | .subRsp n _ => { s with rsp := s.rsp - (n : Int) }
  | .addRsp n _ => { s with rsp := s.rsp + (n : Int) }
  | .storeXmm off x => { s with mem := updM s.mem (s.rsp + (off : Int)) (s.xmm x) }
  | .loadXmm x off => { s with xmm := updF s.xmm x (s.mem (s.rsp + (off : Int))) }
  | .movRR w d r => { s with gpr := updF s.gpr d (s.gpr r % 2 ^ w) }
  | .movRI w d v => { s with gpr := updF s.gpr d (v % 2 ^ w) }
  | .pushImm w v => { s with mem := updM s.mem (s.rsp - (w / 8 : Nat)) (v % 2 ^ w),
                             rsp := s.rsp - (w / 8 : Nat) }
  | .callDirect _ => s
  | .callPtr _ => s

/-- Execution of an emitted instruction sequence. -/
def exec (abi : Abi) (l : List Instr) (s : MState) : MState :=
  l.foldl (step abi) s

@[simp] theorem exec_nil (abi : Abi) (s : MState) : exec abi [] s = s := rfl

@[simp] theorem exec_cons (abi : Abi) (i : Instr) (l : List Instr) (s : MState) :
    exec abi (i :: l) s = exec abi l (step abi s i) := rfl

theorem exec_append (abi : Abi) (l₁ l₂ : List Instr) (s : MState) :
    exec abi (l₁ ++ l₂) s = exec abi l₂ (exec abi l₁ s) :=
  List.foldl_append _ _ _ _

/-! ## Stack Adjustment Emitter (`ABI_AlignStack` / `ABI_RestoreStack`) -/

/-- Embedding of `XEmitter::ABI_AlignStack`: computes
`fillSize = ABI_GetAlignedFrameSize(frameSize, noProlog) - frameSize`
(`unsigned int` subtraction, hence mod `2^32`) and emits a single
`SUB rsp, Imm8(fillSize)` when `fillSize` is nonzero, nothing otherwise. -/
def ABI_AlignStack (abi : Abi) (frameSize : Nat) (noProlog : Bool) : List Instr :=
  let fillSize :=
    (ABI_GetAlignedFrameSize abi frameSize noProlog % 2 ^ 32 + 2 ^ 32 - frameSize % 2 ^ 32) % 2 ^ 32
  if fillSize ≠ 0 then [.subRsp fillSize .imm8] else []

/-- Embedding of `XEmitter::ABI_RestoreStack`: emits a single
`ADD rsp, Imm8(alignedSize)` for the full aligned size when it is nonzero,
nothing otherwise. -/
def ABI_RestoreStack (abi : Abi) (frameSize : Nat) (noProlog : Bool) : List Instr :=
  let alignedSize := ABI_GetAlignedFrameSize abi frameSize noProlog
  if alignedSize ≠ 0 then [.addRsp alignedSize .imm8] else []

/-- C3 (counterexample): `ABI_RestoreStack` is not the mirror of the
subtract emitted by `ABI_AlignStack`. At `frameSize = 16, noProlog = false`
on the 32-bit non-Windows target the aligned size is 16, so the delta
`alignedSize - frameSize` is zero: `ABI_AlignStack` emits nothing, yet
`ABI_RestoreStack` emits an `ADD` of 16 (it restores the full aligned size,
not the delta). -/
theorem ABI_RestoreStack_not_mirror :
    ABI_AlignStack .unix32 16 false = [] ∧
    ABI_RestoreStack .unix32 16 false = [.addRsp 16 .imm8] ∧
    ¬(ABI_RestoreStack .unix32 16 false =
        (if ABI_GetAlignedFrameSize .unix32 16 false - 16 ≠ 0 then
          [.addRsp (ABI_GetAlignedFrameSize .unix32 16 false - 16) .imm8]
         else [])) := by
  refine ⟨by decide, by decide, by decide⟩

/-- C3 (amended): `ABI_AlignStack(frameSize, noProlog)` emits exactly one
`SUB rsp` instruction with an 8-bit immediate, of size
`ABI_GetAlignedFrameSize(frameSize, noProlog) - frameSize`, when that delta
is nonzero, and emits nothing when the delta is zero. `ABI_RestoreStack`
emits one `ADD rsp` (8-bit immediate) of the **full aligned size** —
delta plus `frameSize`, covering the argument bytes pushed in between —
skipped when the aligned size (not the delta) is zero. -/
theorem ABI_AlignStack_RestoreStack_spec (abi : Abi) (fs : Nat) (np : Bool)
    (s : MState) (hfs : fs < 2 ^ 32)
    (hle : fs ≤ ABI_GetAlignedFrameSize abi fs np) :
    (ABI_AlignStack abi fs np =
      if ABI_GetAlignedFrameSize abi fs np - fs ≠ 0 then
        [.subRsp (ABI_GetAlignedFrameSize abi fs np - fs) .imm8]
      else []) ∧
    (ABI_RestoreStack abi fs np =
      if ABI_GetAlignedFrameSize abi fs np ≠ 0 then
        [.addRsp (ABI_GetAlignedFrameSize abi fs np) .imm8]
      else []) ∧
    (exec abi (ABI_AlignStack abi fs np) s).rsp =
      s.rsp - ((ABI_GetAlignedFrameSize abi fs np - fs : Nat) : Int) ∧
    (exec abi (ABI_RestoreStack abi fs np) s).rsp =
      s.rsp + ((ABI_GetAlignedFrameSize abi fs np : Nat) : Int) := by
  have hG := ABI_GetAlignedFrameSize_lt abi fs np
  set G := ABI_GetAlignedFrameSize abi fs np with hGdef
  have hfill : (G % 2 ^ 32 + 2 ^ 32 - fs % 2 ^ 32) % 2 ^ 32 = G - fs := by
    rw [Nat.mod_eq_of_lt hG, Nat.mod_eq_of_lt hfs]
    have h1 : G + 2 ^ 32 - fs = (G - fs) + 2 ^ 32 := by omega
    rw [h1, Nat.add_mod_right, Nat.mod_eq_of_lt (by omega)]
  have halign : ABI_AlignStack abi fs np =
      if G - fs ≠ 0 then [.subRsp (G - fs) .imm8] else [] := by
    rw [ABI_AlignStack, hfill]
  have hrestore : ABI_RestoreStack abi fs np =
      if G ≠ 0 then [.addRsp G .imm8] else [] := rfl
  refine ⟨halign, hrestore, ?_, ?_⟩
  · rw [halign]
    by_cases h : G - fs ≠ 0 <;> simp [h, exec, step]
    omega
  · rw [hrestore]
    by_cases h : G ≠ 0 <;> simp [h, exec, step]
    omega

/-- Witness for `ABI_AlignStack_RestoreStack_spec` at the Win64 no-prolog
call site (`frameSize = 0, noProlog = true`, aligned size `0x28`). -/
theorem ABI_AlignStack_RestoreStack_spec_witness :
    (ABI_AlignStack .win64 0 true =
      if ABI_GetAlignedFrameSize .win64 0 true - 0 ≠ 0 then
        [.subRsp (ABI_GetAlignedFrameSize .win64 0 true - 0) .imm8]
      else []) ∧
    (ABI_RestoreStack .win64 0 true =
      if ABI_GetAlignedFrameSize .win64 0 true ≠ 0 then
        [.addRsp (ABI_GetAlignedFrameSize .win64 0 true) .imm8]
      else []) ∧
    (exec .win64 (ABI_AlignStack .win64 0 true)
        ⟨fun _ => 0, fun _ => 0, 0, fun _ => 0⟩).rsp =
      (0 : Int) - ((ABI_GetAlignedFrameSize .win64 0 true - 0 : Nat) : Int) ∧
    (exec .win64 (ABI_RestoreStack .win64 0 true)
        ⟨fun _ => 0, fun _ => 0, 0, fun _ => 0⟩).rsp =
      (0 : Int) + ((ABI_GetAlignedFrameSize .win64 0 true : Nat) : Int) := by
  exact ABI_AlignStack_RestoreStack_spec .win64 0 true
    ⟨fun _ => 0, fun _ => 0, 0, fun _ => 0⟩ (by decide) (by decide)

/-! ## Register Save/Restore Unit
(`ABI_PushRegistersAndAdjustStack` / `ABI_PopRegistersAndAdjustStack`) -/

/-- General-purpose registers selected by the low 16 mask bits, in the
ascending order of the source's `for (int r = 0; r < 16; r++)` push loop. -/
def gprList (mask : Nat) : List (Fin 16) :=
  (List.finRange 16).filter (fun r => mask.testBit r.val)

/-- Vector registers selected by mask bits 16..31, ascending
(`mask & (1 << (16 + x))`). -/
def xmmList (mask : Nat) : List (Fin 16) :=
  (List.finRange 16).filter (fun x => mask.testBit (16 + x.val))

/-- The pop loop of the source runs `for (int r = 15; r >= 0; r--)`. -/
def popGprList (mask : Nat) : List (Fin 16) :=
  (List.finRange 16).reverse.filter (fun r => mask.testBit r.val)

/-- The alignment correction `((noProlog ? -regSize : 0) - (count * regSize)) & 0xf`
— `int` arithmetic whose `& 0xf` takes the nonnegative residue mod 16. -/
def alignGap (abi : Abi) (noProlog : Bool) (count : Nat) : Nat :=
  (((if noProlog then -(regSize abi : Int) else 0) - (count : Int) * (regSize abi : Int)) % 16).toNat

/-- Total stack adjustment computed by the push function: alignment gap,
then 16 bytes per selected vector register, then the Win64 shadow space. -/
def pushAdjSize (abi : Abi) (mask : Nat) (noProlog : Bool) : Nat :=
  alignGap abi noProlog (gprList mask).length + 16 * (xmmList mask).length + shadow abi

/-- Total stack adjustment computed by the pop function: shadow space,
then 16 bytes per selected vector register, then the alignment gap. -/
def popAdjSize (abi : Abi) (mask : Nat) (noProlog : Bool) : Nat :=
  shadow abi + 16 * (xmmList mask).length + alignGap abi noProlog (gprList mask).length

/-- Immediate-width selection `size >= 0x80 ? Imm32(size) : Imm8(size)`. -/
def immSel (n : Nat) : ImmW := if 0x80 ≤ n then .imm32 else .imm8

/-- The `MOVAPD(MDisp(RSP, offset), xmm)` store loop: offsets ascend in
16-byte strides from the starting offset. -/
def storeSeq (off : Nat) : List (Fin 16) → List Instr
  | [] => []
  | x :: xs => .storeXmm off x :: storeSeq (off + 16) xs

/-- The `MOVAPD(xmm, MDisp(RSP, offset))` load loop of the pop function. -/
def loadSeq (off : Nat) : List (Fin 16) → List Instr
  | [] => []
  | x :: xs => .loadXmm x off :: loadSeq (off + 16) xs

/-- Embedding of `XEmitter::ABI_PushRegistersAndAdjustStack`: push the
selected general-purpose registers in ascending index order, subtract the
computed total (8-bit immediate below 0x80, 32-bit from 0x80 up) when it
is nonzero, then store the selected vector registers at ascending 16-byte
offsets starting just after the shadow space. -/
def ABI_PushRegistersAndAdjustStack (abi : Abi) (mask : Nat) (noProlog : Bool) : List Instr :=
  (gprList mask).map .push
    ++ (if pushAdjSize abi mask noProlog ≠ 0 then
          [.subRsp (pushAdjSize abi mask noProlog) (immSel (pushAdjSize abi mask noProlog))]
        else [])
    ++ storeSeq (shadow abi) (xmmList mask)

/-- Embedding of `XEmitter::ABI_PopRegistersAndAdjustStack`: load the
vector registers back from the same offsets, add the recomputed total when
nonzero, then pop the general-purpose registers in descending index order. -/
def ABI_PopRegistersAndAdjustStack (abi : Abi) (mask : Nat) (noProlog : Bool) : List Instr :=
  loadSeq (shadow abi) (xmmList mask)
    ++ (if popAdjSize abi mask noProlog ≠ 0 then
          [.addRsp (popAdjSize abi mask noProlog) (immSel (popAdjSize abi mask noProlog))]
        else [])
    ++ (popGprList mask).map .pop

theorem adjSize_eq (abi : Abi) (mask : Nat) (np : Bool) :
    popAdjSize abi mask np = pushAdjSize abi mask np := by
  unfold popAdjSize pushAdjSize
  omega

theorem regSize_pos (abi : Abi) : 0 < regSize abi := by
  cases abi <;> simp [regSize]

/-- The conditional stack-subtract always lowers `rsp` by the size (a zero
size emits nothing and lowers it by zero). -/
theorem exec_ifSub (abi : Abi) (S : Nat) (w : ImmW) (u : MState) :
    exec abi (if S ≠ 0 then [.subRsp S w] else []) u = { u with rsp := u.rsp - (S : Int) } := by
  by_cases h : S = 0
  · subst h
    simp [exec]
  · simp [h, exec, step]

theorem exec_ifAdd (abi : Abi) (S : Nat) (w : ImmW) (u : MState) :
    exec abi (if S ≠ 0 then [.addRsp S w] else []) u = { u with rsp := u.rsp + (S : Int) } := by
  by_cases h : S = 0
  · subst h
    simp [exec]
  · simp [h, exec, step]

theorem exec_storeSeq_gpr (abi : Abi) (X : List (Fin 16)) :
    ∀ (off : Nat) (w : MState), (exec abi (storeSeq off X) w).gpr = w.gpr := by
  induction X with
  | nil => intro off w; rfl
  | cons x xs ih => intro off w; simp [storeSeq, step, ih]

theorem exec_storeSeq_xmm (abi : Abi) (X : List (Fin 16)) :
    ∀ (off : Nat) (w : MState), (exec abi (storeSeq off X) w).xmm = w.xmm := by
  induction X with
  | nil => intro off w; rfl
  | cons x xs ih => intro off w; simp [storeSeq, step, ih]

theorem exec_storeSeq_rsp (abi : Abi) (X : List (Fin 16)) :
    ∀ (off : Nat) (w : MState), (exec abi (storeSeq off X) w).rsp = w.rsp := by
  induction X with
  | nil => intro off w; rfl
  | cons x xs ih => intro off w; simp [storeSeq, step, ih]

/-- Stores never touch addresses below the lowest store slot. -/
theorem exec_storeSeq_mem_lo (abi : Abi) (X : List (Fin 16)) :
    ∀ (off : Nat) (w : MState) (a : Int), a < w.rsp + (off : Int) →
      (exec abi (storeSeq off X) w).mem a = w.mem a := by
  induction X with
  | nil => intro off w a _; rfl
  | cons x xs ih =>
    intro off w a ha
    simp only [storeSeq, exec_cons, step]
    rw [ih (off + 16) _ a (by push_cast; omega)]
    exact updM_ne _ _ (by omega)

/-- Stores never touch addresses at or above the end of the store region. -/
theorem exec_storeSeq_mem_hi (abi : Abi) (X : List (Fin 16)) :
    ∀ (off : Nat) (w : MState) (a : Int),
      w.rsp + (off : Int) + 16 * (X.length : Int) ≤ a →
      (exec abi (storeSeq off X) w).mem a = w.mem a := by
  induction X with
  | nil => intro off w a _; rfl
  | cons x xs ih =>
    intro off w a ha
    simp only [List.length_cons] at ha
    simp only [storeSeq, exec_cons, step]
    rw [ih (off + 16) _ a (by push_cast; push_cast at ha; omega)]
    exact updM_ne _ _ (by push_cast at ha; omega)

/-- The `j`-th store writes the `j`-th selected vector register at offset
`off + 16 * j`, and no later store overwrites it. -/
theorem exec_storeSeq_mem_at (abi : Abi) (X : List (Fin 16)) :
    ∀ (off : Nat) (w : MState) (j : Nat) (hj : j < X.length),
      (exec abi (storeSeq off X) w).mem (w.rsp + (off : Int) + 16 * (j : Int)) =
        w.xmm (X.get ⟨j, hj⟩) := by
  induction X with
  | nil => intro off w j hj; exact absurd hj (by simp)
  | cons x xs ih =>
    intro off w j hj
    match j with
    | 0 =>
      simp only [storeSeq, exec_cons, step]
      rw [exec_storeSeq_mem_lo abi xs (off + 16) _ _ (by push_cast; omega)]
      simp
    | Nat.succ j =>
      have hj' : j < xs.length := by simpa using hj
      simp only [storeSeq, exec_cons, step]
      have haddr : w.rsp + (off : Int) + 16 * ((j + 1 : Nat) : Int) =
          w.rsp + ((off + 16 : Nat) : Int) + 16 * (j : Int) := by push_cast; ring
      rw [haddr]
      have := ih (off + 16) { w with mem := updM w.mem (w.rsp + (off : Int)) (w.xmm x) } j hj'
      simpa using this

/-- If memory already holds each selected vector register's value at its
slot, the load loop is a no-op on the whole state. -/
theorem exec_loadSeq_eq (abi : Abi) (X : List (Fin 16)) :
    ∀ (off : Nat) (w : MState),
      (∀ (j : Nat) (hj : j < X.length),
        w.mem (w.rsp + (off : Int) + 16 * (j : Int)) = w.xmm (X.get ⟨j, hj⟩)) →
      exec abi (loadSeq off X) w = w := by
  induction X with
  | nil => intro off w _; rfl
  | cons x xs ih =>
    intro off w h
    have h0 : w.mem (w.rsp + (off : Int)) = w.xmm x := by
      have := h 0 (by simp)
      simpa using this
    have hstep : step abi w (.loadXmm x off) = w := by
      show { w with xmm := updF w.xmm x (w.mem (w.rsp + (off : Int))) } = w
      rw [h0, updF_self]
    simp only [loadSeq, exec_cons, hstep]
    apply ih (off + 16) w
    intro j hj
    have := h (j + 1) (by simpa using Nat.succ_lt_succ hj)
    have haddr : w.rsp + (off : Int) + 16 * ((j + 1 : Nat) : Int) =
        w.rsp + ((off + 16 : Nat) : Int) + 16 * (j : Int) := by push_cast; ring
    rw [haddr] at this
    simpa using this

/-- The middle section of a push/pop pair — conditional subtract, vector
stores, vector loads, conditional add — preserves `rsp`, all registers,
and every memory cell at or above the incoming `rsp`. -/
theorem exec_midSeq (abi : Abi) (mask : Nat) (np : Bool) (u : MState) :
    (exec abi ((if pushAdjSize abi mask np ≠ 0 then
          [.subRsp (pushAdjSize abi mask np) (immSel (pushAdjSize abi mask np))] else [])
        ++ storeSeq (shadow abi) (xmmList mask)
        ++ loadSeq (shadow abi) (xmmList mask)
        ++ (if popAdjSize abi mask np ≠ 0 then
          [.addRsp (popAdjSize abi mask np) (immSel (popAdjSize abi mask np))] else [])) u).rsp
      = u.rsp ∧
    (exec abi ((if pushAdjSize abi mask np ≠ 0 then
          [.subRsp (pushAdjSize abi mask np) (immSel (pushAdjSize abi mask np))] else [])
        ++ storeSeq (shadow abi) (xmmList mask)
        ++ loadSeq (shadow abi) (xmmList mask)
        ++ (if popAdjSize abi mask np ≠ 0 then
          [.addRsp (popAdjSize abi mask np) (immSel (popAdjSize abi mask np))] else [])) u).gpr
      = u.gpr ∧
    (exec abi ((if pushAdjSize abi mask np ≠ 0 then
          [.subRsp (pushAdjSize abi mask np) (immSel (pushAdjSize abi mask np))] else [])
        ++ storeSeq (shadow abi) (xmmList mask)
        ++ loadSeq (shadow abi) (xmmList mask)
        ++ (if popAdjSize abi mask np ≠ 0 then
          [.addRsp (popAdjSize abi mask np) (immSel (popAdjSize abi mask np))] else [])) u).xmm
      = u.xmm ∧
    ∀ a : Int, u.rsp ≤ a →
      (exec abi ((if pushAdjSize abi mask np ≠ 0 then
            [.subRsp (pushAdjSize abi mask np) (immSel (pushAdjSize abi mask np))] else [])
          ++ storeSeq (shadow abi) (xmmList mask)
          ++ loadSeq (shadow abi) (xmmList mask)
          ++ (if popAdjSize abi mask np ≠ 0 then
            [.addRsp (popAdjSize abi mask np) (immSel (popAdjSize abi mask np))] else [])) u).mem a
        = u.mem a := by
  have hS' : popAdjSize abi mask np = pushAdjSize abi mask np := adjSize_eq abi mask np
  set S := pushAdjSize abi mask np with hSdef
  have hSge : shadow abi + 16 * (xmmList mask).length ≤ S := by
    rw [hSdef]; unfold pushAdjSize; omega
  rw [exec_append, exec_append, exec_append, exec_ifSub]
  set u1 : MState := { u with rsp := u.rsp - (S : Int) } with hu1
  set u2 := exec abi (storeSeq (shadow abi) (xmmList mask)) u1 with hu2
  have h2rsp : u2.rsp = u1.rsp := exec_storeSeq_rsp abi _ _ _
  have h2gpr : u2.gpr = u1.gpr := exec_storeSeq_gpr abi _ _ _
  have h2xmm : u2.xmm = u1.xmm := exec_storeSeq_xmm abi _ _ _
  have hload : exec abi (loadSeq (shadow abi) (xmmList mask)) u2 = u2 := by
    apply exec_loadSeq_eq
    intro j hj
    rw [h2rsp, h2xmm]
    exact exec_storeSeq_mem_at abi (xmmList mask) (shadow abi) u1 j hj
  rw [hload, hS', exec_ifAdd]
  refine ⟨?_, ?_, ?_, ?_⟩
  · show u2.rsp + (S : Int) = u.rsp
    rw [h2rsp]
    show u.rsp - (S : Int) + (S : Int) = u.rsp
    ring
  · exact h2gpr
  · exact h2xmm
  · intro a ha
    show u2.mem a = u.mem a
    rw [hu2]
    rw [exec_storeSeq_mem_hi abi (xmmList mask) (shadow abi) u1 a
      (by show u1.rsp + _ + _ ≤ a
          rw [hu1]
          push_cast
          omega)]

/-- Pushing a register list, running any middle section that preserves
`rsp`, the registers and all memory at or above its incoming `rsp`, and
then popping the reversed list restores `rsp`, all general-purpose and all
vector registers, and all memory at or above the original `rsp`. -/
theorem pushes_pops_roundTrip (abi : Abi) (hrs : 0 < regSize abi)
    (mid : MState → MState)
    (hmidRsp : ∀ u, (mid u).rsp = u.rsp)
    (hmidGpr : ∀ u, (mid u).gpr = u.gpr)
    (hmidXmm : ∀ u, (mid u).xmm = u.xmm)
    (hmidMem : ∀ u (a : Int), u.rsp ≤ a → (mid u).mem a = u.mem a) :
    ∀ (L : List (Fin 16)) (s : MState),
      (exec abi (L.reverse.map .pop) (mid (exec abi (L.map .push) s))).rsp = s.rsp ∧
      (exec abi (L.reverse.map .pop) (mid (exec abi (L.map .push) s))).gpr = s.gpr ∧
      (exec abi (L.reverse.map .pop) (mid (exec abi (L.map .push) s))).xmm = s.xmm ∧
      ∀ a : Int, s.rsp ≤ a →
        (exec abi (L.reverse.map .pop) (mid (exec abi (L.map .push) s))).mem a = s.mem a := by
  intro L
  induction L with
  | nil =>
    intro s
    simp only [List.map_nil, List.reverse_nil, exec_nil]
    exact ⟨hmidRsp s, hmidGpr s, hmidXmm s, fun a ha => hmidMem s a ha⟩
  | cons r L ih =>
    intro s
    have hpop : ((r :: L).reverse).map Instr.pop =
        L.reverse.map Instr.pop ++ [Instr.pop r] := by
      rw [List.reverse_cons, List.map_append]
      rfl
    simp only [List.map_cons, exec_cons, hpop, exec_append]
    set s1 := step abi s (.push r) with hs1
    obtain ⟨ih1, ih2, ih3, ih4⟩ := ih s1
    set t1 := exec abi (L.reverse.map .pop) (mid (exec abi (L.map .push) s1)) with ht1
    have hs1rsp : s1.rsp = s.rsp - (regSize abi : Int) := rfl
    have hs1gpr : s1.gpr = s.gpr := rfl
    have hs1xmm : s1.xmm = s.xmm := rfl
    have hs1mem : s1.mem = updM s.mem (s.rsp - (regSize abi : Int)) (s.gpr r) := rfl
    have hval : t1.mem t1.rsp = s.gpr r := by
      rw [ih1, hs1rsp, ih4 (s.rsp - (regSize abi : Int)) (le_of_eq hs1rsp), hs1mem, updM_at]
    refine ⟨?_, ?_, ?_, ?_⟩
    · show t1.rsp + (regSize abi : Int) = s.rsp
      rw [ih1, hs1rsp]
      ring
    · show updF t1.gpr r (t1.mem t1.rsp) = s.gpr
      rw [hval, ih2, hs1gpr, updF_self]
    · show t1.xmm = s.xmm
      rw [ih3, hs1xmm]
    · intro a ha
      show t1.mem a = s.mem a
      have hrs' : (0 : Int) < (regSize abi : Int) := by exact_mod_cast hrs
      rw [ih4 a (by rw [hs1rsp]; omega), hs1mem, updM_ne _ _ (by omega)]

/-- C4: for every register mask and prolog flag,
`ABI_PushRegistersAndAdjustStack` followed by
`ABI_PopRegistersAndAdjustStack` is an exact round trip: both compute the
identical total byte displacement, the pop loop runs over exactly the
reversed push list, and the stack pointer, every general-purpose register
and every vector register return to their pre-save values. -/
theorem ABI_PushPopRegisters_roundTrip (abi : Abi) (mask : Nat) (np : Bool) (s : MState) :
    pushAdjSize abi mask np = popAdjSize abi mask np ∧
    popGprList mask = (gprList mask).reverse ∧
    (exec abi (ABI_PopRegistersAndAdjustStack abi mask np)
      (exec abi (ABI_PushRegistersAndAdjustStack abi mask np) s)).rsp = s.rsp ∧
    (exec abi (ABI_PopRegistersAndAdjustStack abi mask np)
      (exec abi (ABI_PushRegistersAndAdjustStack abi mask np) s)).gpr = s.gpr ∧
    (exec abi (ABI_PopRegistersAndAdjustStack abi mask np)
      (exec abi (ABI_PushRegistersAndAdjustStack abi mask np) s)).xmm = s.xmm := by
  have hrev : popGprList mask = (gprList mask).reverse := by
    unfold popGprList gprList
    exact List.filter_reverse _ _
  have hmid := fun u => exec_midSeq abi mask np u
  have key := pushes_pops_roundTrip abi (regSize_pos abi)
    (fun u => exec abi ((if pushAdjSize abi mask np ≠ 0 then
          [.subRsp (pushAdjSize abi mask np) (immSel (pushAdjSize abi mask np))] else [])
        ++ storeSeq (shadow abi) (xmmList mask)
        ++ loadSeq (shadow abi) (xmmList mask)
        ++ (if popAdjSize abi mask np ≠ 0 then
          [.addRsp (popAdjSize abi mask np) (immSel (popAdjSize abi mask np))] else [])) u)
    (fun u => (hmid u).1) (fun u => (hmid u).2.1) (fun u => (hmid u).2.2.1)
    (fun u a ha => (hmid u).2.2.2 a ha)
    (gprList mask) s
  simp only [exec_append] at key
  refine ⟨(adjSize_eq abi mask np).symm, hrev, ?_, ?_, ?_⟩
  · unfold ABI_PushRegistersAndAdjustStack ABI_PopRegistersAndAdjustStack
    rw [hrev]
    simp only [exec_append]
    exact key.1
  · unfold ABI_PushRegistersAndAdjustStack ABI_PopRegistersAndAdjustStack
    rw [hrev]
    simp only [exec_append]
    exact key.2.1
  · unfold ABI_PushRegistersAndAdjustStack ABI_PopRegistersAndAdjustStack
    rw [hrev]
    simp only [exec_append]
    exact key.2.2.1

/-- C9: push and pop compute the same stack-adjustment total; the single
adjust instruction uses a 32-bit immediate exactly from `0x80` up and an
8-bit immediate below, push and pop select the same encoding for the same
inputs, and a mask selecting eight or more vector registers always forces
the 32-bit encoding. -/
theorem adjust_imm_width (abi : Abi) (mask : Nat) (np : Bool) :
    popAdjSize abi mask np = pushAdjSize abi mask np ∧
    (0x80 ≤ pushAdjSize abi mask np → immSel (pushAdjSize abi mask np) = .imm32) ∧
    (pushAdjSize abi mask np < 0x80 → immSel (pushAdjSize abi mask np) = .imm8) ∧
    (8 ≤ (xmmList mask).length → 0x80 ≤ pushAdjSize abi mask np) ∧
    (pushAdjSize abi mask np ≠ 0 →
      Instr.subRsp (pushAdjSize abi mask np) (immSel (pushAdjSize abi mask np)) ∈
        ABI_PushRegistersAndAdjustStack abi mask np ∧
      Instr.addRsp (pushAdjSize abi mask np) (immSel (pushAdjSize abi mask np)) ∈
        ABI_PopRegistersAndAdjustStack abi mask np) := by
  refine ⟨adjSize_eq abi mask np, ?_, ?_, ?_, ?_⟩
  · intro h
    simp [immSel, h]
  · intro h
    simp [immSel, Nat.not_le_of_lt h]
  · intro h
    unfold pushAdjSize
    omega
  · intro h
    constructor
    · unfold ABI_PushRegistersAndAdjustStack
      simp [h]
    · unfold ABI_PopRegistersAndAdjustStack
      rw [adjSize_eq abi mask np]
      simp [h]

/-- Witness for `adjust_imm_width`: a mask selecting the eight vector
registers XMM0–XMM7 yields a 128-byte total, encoded as a 32-bit
immediate by both push and pop. -/
theorem adjust_imm_width_witness :
    Instr.subRsp (pushAdjSize .unix64 0xFF0000 false) (immSel (pushAdjSize .unix64 0xFF0000 false)) ∈
      ABI_PushRegistersAndAdjustStack .unix64 0xFF0000 false ∧
    Instr.addRsp (pushAdjSize .unix64 0xFF0000 false) (immSel (pushAdjSize .unix64 0xFF0000 false)) ∈
      ABI_PopRegistersAndAdjustStack .unix64 0xFF0000 false ∧
    0x80 ≤ pushAdjSize .unix64 0xFF0000 false :=
  ⟨((adjust_imm_width .unix64 0xFF0000 false).2.2.2.2 (by decide)).1,
   ((adjust_imm_width .unix64 0xFF0000 false).2.2.2.2 (by decide)).2,
   (adjust_imm_width .unix64 0xFF0000 false).2.2.2.1 (by decide)⟩

/-! ## Call-Site Builder -/

/-- First argument register (`ABI_PARAM1`): RCX on Win64, RDI on Unix64.
The 32-bit targets pass arguments on the stack and have no parameter
registers; the value is unused there. -/
def paramReg1 : Abi → Fin 16
  | .win64 => 1
  | .unix64 => 7
  | .win32 => 0
  | .unix32 => 0

/-- Second argument register (`ABI_PARAM2`): RDX on Win64, RSI on Unix64. -/
def paramReg2 : Abi → Fin 16
  | .win64 => 2
  | .unix64 => 6
  | .win32 => 0
  | .unix32 => 0

/-- RAX, the scratch register of the far-call fallback. -/
def rax : Fin 16 := 0

/-- The distance computation `u64 distance = u64(func) - (u64(code) + 5)` —
wrap-around `u64` arithmetic, where `code` is the emit cursor at the check. -/
def callDistance (func codeAddr : Nat) : Nat :=
  (func % 2 ^ 64 + 2 ^ 64 - (codeAddr % 2 ^ 64 + 5) % 2 ^ 64) % 2 ^ 64

/-- The far-call condition of every 64-bit call emitter:
`distance >= 0x0000000080000000ULL && distance < 0xFFFFFFFF80000000ULL`. -/
def isFarCall (func codeAddr : Nat) : Bool :=
  decide (0x0000000080000000 ≤ callDistance func codeAddr ∧
          callDistance func codeAddr < 0xFFFFFFFF80000000)

/-- The call itself, as emitted by every 64-bit `ABI_CallFunction*`
variant: a far target loads the absolute address into RAX and calls
through it, a near target gets a direct relative call. -/
def callTail (func codeAddr : Nat) : List Instr :=
  if isFarCall func codeAddr then [.movRI 64 rax func, .callPtr rax] else [.callDirect func]

/-- Whether an instruction is a control transfer to the callee. -/
def Instr.isCall : Instr → Bool
  | .callDirect _ => true
  | .callPtr _ => true
  | _ => false

/-- The part of an emitted call sequence that executes before the call
instruction itself. -/
def argSetup (l : List Instr) : List Instr := l.takeWhile (fun i => ! i.isCall)

/-- Embedding of the 64-bit `XEmitter::ABI_CallFunction(void *func)`. -/
def ABI_CallFunction64 (abi : Abi) (codeAddr func : Nat) : List Instr :=
  ABI_AlignStack abi 0 false ++ callTail func codeAddr ++ ABI_RestoreStack abi 0 false

/-- The argument moves of the 64-bit `ABI_CallFunctionRR`, with the
source's nested conflict tests. -/
def movesRR (P1 P2 reg1 reg2 : Fin 16) : List Instr :=
  if reg2 ≠ P1 then
    (if reg1 ≠ P1 then [.movRR 64 P1 reg1] else []) ++
      (if reg2 ≠ P2 then [.movRR 64 P2 reg2] else [])
  else
    (if reg2 ≠ P2 then [.movRR 64 P2 reg2] else []) ++
      (if reg1 ≠ P1 then [.movRR 64 P1 reg1] else [])

/-- Embedding of the 64-bit
`XEmitter::ABI_CallFunctionRR(void *func, X64Reg reg1, X64Reg reg2, bool noProlog)`. -/
def ABI_CallFunctionRR64 (abi : Abi) (codeAddr func : Nat) (reg1 reg2 : Fin 16)
    (np : Bool) : List Instr :=
  ABI_AlignStack abi 0 np ++ movesRR (paramReg1 abi) (paramReg2 abi) reg1 reg2
    ++ callTail func codeAddr ++ ABI_RestoreStack abi 0 np

/-- Embedding of the 32-bit
`XEmitter::ABI_CallFunctionCC(void *func, u32 param1, u32 param2)`:
align for 8 bytes, `PUSH(32, Imm32(param2))`, `PUSH(32, Imm32(param1))`,
call, restore. -/
def ABI_CallFunctionCC32 (abi : Abi) (func p1 p2 : Nat) : List Instr :=
  ABI_AlignStack abi 8 false
    ++ [.pushImm 32 p2, .pushImm 32 p1, .callDirect func]
    ++ ABI_RestoreStack abi 8 false

/-- Embedding of the 64-bit `ABI_CallFunctionCC`:
`MOV(32, ABI_PARAM1, Imm32(param1))`, `MOV(32, ABI_PARAM2, Imm32(param2))`,
then the shared call tail. -/
def ABI_CallFunctionCC64 (abi : Abi) (codeAddr func p1 p2 : Nat) : List Instr :=
  ABI_AlignStack abi 0 false
    ++ [.movRI 32 (paramReg1 abi) p1, .movRI 32 (paramReg2 abi) p2]
    ++ callTail func codeAddr ++ ABI_RestoreStack abi 0 false

theorem align_noCall (abi : Abi) (fs : Nat) (np : Bool) :
    ∀ i ∈ ABI_AlignStack abi fs np, (! i.isCall) = true := by
  intro i hi
  simp [ABI_AlignStack] at hi
  rw [hi.2]
  rfl

theorem movesRR_noCall (P1 P2 r1 r2 : Fin 16) :
    ∀ i ∈ movesRR P1 P2 r1 r2, (! i.isCall) = true := by
  intro i hi
  unfold movesRR at hi
  split_ifs at hi <;> simp at hi <;>
    first
      | (subst hi; rfl)
      | (rcases hi with hi | hi <;> (subst hi; rfl))

theorem argSetup_append (l₁ l₂ : List Instr) (h : ∀ i ∈ l₁, (! i.isCall) = true) :
    argSetup (l₁ ++ l₂) = l₁ ++ argSetup l₂ := by
  unfold argSetup
  exact List.takeWhile_append_of_pos h

theorem argSetup_callTail (func code : Nat) (l : List Instr) :
    argSetup (callTail func code ++ l) =
      if isFarCall func code then [.movRI 64 rax func] else [] := by
  unfold callTail argSetup
  by_cases h : isFarCall func code <;>
    simp [h, List.takeWhile_cons, Instr.isCall]

/-- Executing `ABI_AlignStack` only moves the stack pointer. -/
theorem exec_align_state (abi : Abi) (fs : Nat) (np : Bool) (s : MState) :
    exec abi (ABI_AlignStack abi fs np) s =
      { s with rsp := s.rsp -
          (((ABI_GetAlignedFrameSize abi fs np % 2 ^ 32 + 2 ^ 32 - fs % 2 ^ 32) % 2 ^ 32 : Nat) : Int) } := by
  have hsplit : ABI_AlignStack abi fs np =
      if (ABI_GetAlignedFrameSize abi fs np % 2 ^ 32 + 2 ^ 32 - fs % 2 ^ 32) % 2 ^ 32 ≠ 0 then
        [.subRsp ((ABI_GetAlignedFrameSize abi fs np % 2 ^ 32 + 2 ^ 32 - fs % 2 ^ 32) % 2 ^ 32) .imm8]
      else [] := rfl
  rw [hsplit]
  split
  · simp [exec, step]
  · next h =>
    rw [not_not] at h
    rw [h]
    simp [exec]

theorem callDistance_lt (func code : Nat) : callDistance func code < 2 ^ 64 :=
  Nat.mod_lt _ (by norm_num)

/-- The congruence `(code + 5) + distance ≡ func (mod 2^64)`: the distance is
the exact wrap-around displacement from the end of a 5-byte near call to the
target. -/
theorem callDistance_key (func code : Nat) :
    (code + 5 + callDistance func code) % 2 ^ 64 = func % 2 ^ 64 := by
  unfold callDistance
  omega

/-- C6: a 64-bit call emitter takes the direct near-call path exactly when
the wrap-around distance `target - (emitAddress + 5)` is a 32-bit signed
displacement (some `δ` with `-2^31 ≤ δ < 2^31` reaching the target mod
`2^64`); a target exactly `0x7FFFFFFF` bytes past the next-instruction
address is a near call, one byte further is the RAX-indirect far call. -/
theorem callTail_near_iff (func code : Nat) (hf : func < 2 ^ 64) (hc : code < 2 ^ 64) :
    (isFarCall func code = false ↔
      ∃ δ : Int, -(2 ^ 31) ≤ δ ∧ δ < 2 ^ 31 ∧
        ((code : Int) + 5 + δ) % 2 ^ 64 = (func : Int)) ∧
    (callTail func code = [.callDirect func] ↔ isFarCall func code = false) ∧
    (isFarCall func code = true →
      callTail func code = [.movRI 64 rax func, .callPtr rax]) ∧
    (code < 2 ^ 63 →
      isFarCall (code + 5 + 0x7FFFFFFF) code = false ∧
      isFarCall (code + 5 + 0x80000000) code = true) := by
  have hd := callDistance_lt func code
  have hkeyNat := callDistance_key func code
  have hkey : ((code : Int) + 5 + (callDistance func code : Int)) % 2 ^ 64 = (func : Int) := by
    omega
  refine ⟨?_, ?_, ?_, ?_⟩
  · constructor
    · intro hnear
      unfold isFarCall at hnear
      rw [decide_eq_false_iff_not] at hnear
      by_cases hlo : callDistance func code < 0x0000000080000000
      · exact ⟨(callDistance func code : Int), by omega, by omega, hkey⟩
      · exact ⟨(callDistance func code : Int) - 2 ^ 64, by omega, by omega, by omega⟩
    · rintro ⟨δ, hδ1, hδ2, hδ3⟩
      unfold isFarCall
      rw [decide_eq_false_iff_not]
      omega
  · constructor
    · intro heq
      by_contra hne
      have hfar : isFarCall func code = true := by
        cases h : isFarCall func code
        · exact absurd h hne
        · rfl
      rw [callTail, hfar] at heq
      simp at heq
    · intro hnear
      rw [callTail, hnear]
      simp
  · intro hfar
    rw [callTail, hfar]
    simp
  · intro hc63
    have hb1 : callDistance (code + 5 + 0x7FFFFFFF) code = 0x7FFFFFFF := by
      unfold callDistance
      omega
    have hb2 : callDistance (code + 5 + 0x80000000) code = 0x80000000 := by
      unfold callDistance
      omega
    constructor
    · unfold isFarCall
      rw [hb1]
      decide
    · unfold isFarCall
      rw [hb2]
      decide

/-- Witness for `callTail_near_iff` at the exact `±2^31` boundary:
with the distance check at address `0x1000`, the target `0x7FFFFFFF`
bytes past the next instruction is emitted as a direct near call, and one
byte further as the RAX-indirect far call. -/
theorem callTail_near_iff_witness :
    callTail (0x1000 + 5 + 0x7FFFFFFF) 0x1000 = [.callDirect (0x1000 + 5 + 0x7FFFFFFF)] ∧
    callTail (0x1000 + 5 + 0x80000000) 0x1000 =
      [.movRI 64 rax (0x1000 + 5 + 0x80000000), .callPtr rax] := by
  constructor
  · exact (callTail_near_iff (0x1000 + 5 + 0x7FFFFFFF) 0x1000 (by norm_num)
      (by norm_num)).2.1.mpr
      (((callTail_near_iff (0x1000 + 5 + 0x7FFFFFFF) 0x1000 (by norm_num)
        (by norm_num)).2.2.2 (by norm_num)).1)
  · exact (callTail_near_iff (0x1000 + 5 + 0x80000000) 0x1000 (by norm_num)
      (by norm_num)).2.2.1
      (((callTail_near_iff (0x1000 + 5 + 0x80000000) 0x1000 (by norm_num)
        (by norm_num)).2.2.2 (by norm_num)).2)

/-- Core correctness of the `ABI_CallFunctionRR` argument moves: outside
the full-swap pair, both argument registers receive their sources. -/
theorem movesRR_sets_params (abi : Abi) (P1 P2 reg1 reg2 : Fin 16) (s : MState)
    (hP : P1 ≠ P2) (hswap : ¬(reg1 = P2 ∧ reg2 = P1))
    (hb : ∀ r, s.gpr r < 2 ^ 64) :
    (exec abi (movesRR P1 P2 reg1 reg2) s).gpr P1 = s.gpr reg1 ∧
    (exec abi (movesRR P1 P2 reg1 reg2) s).gpr P2 = s.gpr reg2 := by
  have m1 : s.gpr reg1 % 2 ^ 64 = s.gpr reg1 := Nat.mod_eq_of_lt (hb reg1)
  have m2 : s.gpr reg2 % 2 ^ 64 = s.gpr reg2 := Nat.mod_eq_of_lt (hb reg2)
  have m3 : s.gpr P1 % 2 ^ 64 = s.gpr P1 := Nat.mod_eq_of_lt (hb P1)
  have m4 : s.gpr P2 % 2 ^ 64 = s.gpr P2 := Nat.mod_eq_of_lt (hb P2)
  by_cases h1 : reg2 = P1
  · have hr2P2 : reg2 ≠ P2 := by rw [h1]; exact hP
    by_cases h2 : reg1 = P1
    · simp [movesRR, h1, h2, hr2P2, exec, step, updF, hP, hP.symm, m1, m2, m3, m4, hb] <;> first | exact hb _ | exact ⟨hb _, hb _⟩
    · have hr1P2 : reg1 ≠ P2 := fun hcon => hswap ⟨hcon, h1⟩
      simp [movesRR, h1, h2, hr2P2, exec, step, updF, hP, hP.symm, hr1P2, m1, m2, m3, m4, hb] <;> first | exact hb _ | exact ⟨hb _, hb _⟩
  · by_cases h2 : reg1 = P1
    · by_cases h3 : reg2 = P2
      · simp [movesRR, h1, h2, h3, exec, step, updF, hP, hP.symm, m1, m2, m3, m4, hb] <;> first | exact hb _ | exact ⟨hb _, hb _⟩
      · simp [movesRR, h1, h2, h3, exec, step, updF, hP, hP.symm, m1, m2, m3, m4, hb] <;> first | exact hb _ | exact ⟨hb _, hb _⟩
    · by_cases h3 : reg2 = P2
      · simp [movesRR, h1, h2, h3, exec, step, updF, hP, hP.symm, m1, m2, m3, m4, hb] <;> first | exact hb _ | exact ⟨hb _, hb _⟩
      · simp [movesRR, h1, h2, h3, exec, step, updF, hP, hP.symm, m1, m2, m3, m4, hb] <;> first | exact hb _ | exact ⟨hb _, hb _⟩

/-- No emitted move is a self-move: a move is skipped whenever its source
already coincides with its destination. -/
theorem movesRR_no_self_move (P1 P2 reg1 reg2 : Fin 16) :
    ∀ w (d r : Fin 16), Instr.movRR w d r ∈ movesRR P1 P2 reg1 reg2 → d ≠ r := by
  intro w d r hmem
  unfold movesRR at hmem
  split_ifs at hmem <;> simp at hmem <;> aesop

/-- C5 (counterexample): with the argument registers fully swapped
(`reg1 = ABI_PARAM2`, `reg2 = ABI_PARAM1`, here RSI/RDI on Unix64), the
emitted moves clobber `reg1` before it is consumed: after the argument
setup, `ABI_PARAM1` does not hold `reg1`'s original value. -/
theorem ABI_CallFunctionRR_swap_clobbers :
    (exec .unix64 (argSetup (ABI_CallFunctionRR64 .unix64 0 0 6 7 false))
      ⟨fun r => (r : Nat), fun _ => 0, 0, fun _ => 0⟩).gpr (paramReg1 .unix64) ≠
    (⟨fun r => (r : Nat), fun _ => 0, 0, fun _ => 0⟩ : MState).gpr 6 := by
  decide

/-- C5 (amended): for every pair of source registers **except** the full
swap `(reg1, reg2) = (ABI_PARAM2, ABI_PARAM1)`, the 64-bit
`ABI_CallFunctionRR` emits its argument moves in a non-clobbering order:
after the emitted moves and before the call, `ABI_PARAM1` holds `reg1`'s
original value and `ABI_PARAM2` holds `reg2`'s original value, and a move
is skipped whenever its source coincides with its destination. In the
excluded full-swap case the first argument register ends up clobbered
(see the counterexample). -/
theorem ABI_CallFunctionRR_moves (abi : Abi) (code func : Nat) (reg1 reg2 : Fin 16)
    (np : Bool) (s : MState)
    (habi : abi = .win64 ∨ abi = .unix64)
    (hswap : ¬(reg1 = paramReg2 abi ∧ reg2 = paramReg1 abi))
    (hb : ∀ r, s.gpr r < 2 ^ 64) :
    (exec abi (argSetup (ABI_CallFunctionRR64 abi code func reg1 reg2 np)) s).gpr
        (paramReg1 abi) = s.gpr reg1 ∧
    (exec abi (argSetup (ABI_CallFunctionRR64 abi code func reg1 reg2 np)) s).gpr
        (paramReg2 abi) = s.gpr reg2 ∧
    ∀ w (d r : Fin 16),
      Instr.movRR w d r ∈ movesRR (paramReg1 abi) (paramReg2 abi) reg1 reg2 → d ≠ r := by
  have hP : paramReg1 abi ≠ paramReg2 abi := by
    rcases habi with h | h <;> subst h <;> decide
  have hrax1 : paramReg1 abi ≠ rax := by
    rcases habi with h | h <;> subst h <;> decide
  have hrax2 : paramReg2 abi ≠ rax := by
    rcases habi with h | h <;> subst h <;> decide
  have hsetup : argSetup (ABI_CallFunctionRR64 abi code func reg1 reg2 np) =
      ABI_AlignStack abi 0 np ++
        (movesRR (paramReg1 abi) (paramReg2 abi) reg1 reg2 ++
          (if isFarCall func code then [.movRI 64 rax func] else [])) := by
    unfold ABI_CallFunctionRR64
    rw [List.append_assoc, List.append_assoc]
    rw [argSetup_append _ _ (align_noCall abi 0 np)]
    rw [argSetup_append _ _ (movesRR_noCall _ _ _ _)]
    rw [argSetup_callTail]
  rw [hsetup, exec_append, exec_append]
  set s1 := exec abi (ABI_AlignStack abi 0 np) s with hs1
  have hs1gpr : s1.gpr = s.gpr := by rw [hs1, exec_align_state]
  have hb1 : ∀ r, s1.gpr r < 2 ^ 64 := by rw [hs1gpr]; exact hb
  have hcore := movesRR_sets_params abi (paramReg1 abi) (paramReg2 abi) reg1 reg2 s1
    hP hswap hb1
  set s2 := exec abi (movesRR (paramReg1 abi) (paramReg2 abi) reg1 reg2) s1 with hs2
  refine ⟨?_, ?_, movesRR_no_self_move _ _ _ _⟩
  · by_cases hfar : isFarCall func code = true
    · rw [if_pos hfar, exec_cons, exec_nil]
      simp only [step]
      rw [updF_ne _ _ hrax1, hcore.1, hs1gpr]
    · rw [if_neg hfar, exec_nil]
      rw [hcore.1, hs1gpr]
  · by_cases hfar : isFarCall func code = true
    · rw [if_pos hfar, exec_cons, exec_nil]
      simp only [step]
      rw [updF_ne _ _ hrax2, hcore.2, hs1gpr]
    · rw [if_neg hfar, exec_nil]
      rw [hcore.2, hs1gpr]

/-- Witness for `ABI_CallFunctionRR_moves` on Unix64 with sources R8/R9. -/
theorem ABI_CallFunctionRR_moves_witness :
    (exec .unix64 (argSetup (ABI_CallFunctionRR64 .unix64 0 0 8 9 false))
      ⟨fun r => (r : Nat), fun _ => 0, 0, fun _ => 0⟩).gpr (paramReg1 .unix64) =
      (⟨fun r => (r : Nat), fun _ => 0, 0, fun _ => 0⟩ : MState).gpr 8 ∧
    (exec .unix64 (argSetup (ABI_CallFunctionRR64 .unix64 0 0 8 9 false))
      ⟨fun r => (r : Nat), fun _ => 0, 0, fun _ => 0⟩).gpr (paramReg2 .unix64) =
      (⟨fun r => (r : Nat), fun _ => 0, 0, fun _ => 0⟩ : MState).gpr 9 ∧
    ∀ w (d r : Fin 16),
      Instr.movRR w d r ∈ movesRR (paramReg1 .unix64) (paramReg2 .unix64) 8 9 → d ≠ r :=
  ABI_CallFunctionRR_moves .unix64 0 0 8 9 false
    ⟨fun r => (r : Nat), fun _ => 0, 0, fun _ => 0⟩
    (Or.inr rfl) (by decide) (fun r => lt_trans r.is_lt (by norm_num))

theorem restore_noCall (abi : Abi) (fs : Nat) (np : Bool) :
    ∀ i ∈ ABI_RestoreStack abi fs np, (! i.isCall) = true := by
  intro i hi
  simp [ABI_RestoreStack] at hi
  rw [hi.2]
  rfl

theorem argSetup_CC32 (abi : Abi) (func p1 p2 : Nat) :
    argSetup (ABI_CallFunctionCC32 abi func p1 p2) =
      ABI_AlignStack abi 8 false ++ [.pushImm 32 p2, .pushImm 32 p1] := by
  unfold ABI_CallFunctionCC32
  rw [List.append_assoc, argSetup_append _ _ (align_noCall abi 8 false)]
  congr 1

theorem exec_CC32_mem (abi : Abi) (func p1 p2 : Nat) (s : MState) :
    (exec abi (argSetup (ABI_CallFunctionCC32 abi func p1 p2)) s).mem
        (exec abi (argSetup (ABI_CallFunctionCC32 abi func p1 p2)) s).rsp = p1 % 2 ^ 32 ∧
    (exec abi (argSetup (ABI_CallFunctionCC32 abi func p1 p2)) s).mem
        ((exec abi (argSetup (ABI_CallFunctionCC32 abi func p1 p2)) s).rsp + 4) = p2 % 2 ^ 32 := by
  rw [argSetup_CC32 abi func p1 p2, exec_append]
  set s1 := exec abi (ABI_AlignStack abi 8 false) s with hs1
  have hmem2 : (exec abi [Instr.pushImm 32 p2, Instr.pushImm 32 p1] s1).mem =
      updM (updM s1.mem (s1.rsp - 4) (p2 % 2 ^ 32)) (s1.rsp - 4 - 4) (p1 % 2 ^ 32) := by
    simp only [exec_cons, exec_nil, step]
    norm_num
  have hrsp2 : (exec abi [Instr.pushImm 32 p2, Instr.pushImm 32 p1] s1).rsp =
      s1.rsp - 4 - 4 := by
    simp only [exec_cons, exec_nil, step]
    norm_num
  rw [hmem2, hrsp2]
  constructor
  · rw [updM_at]
  · rw [updM_ne _ _ (by omega)]
    have haddr : s1.rsp - 4 - 4 + 4 = s1.rsp - 4 := by ring
    rw [haddr, updM_at]

theorem argSetup_CC64 (abi : Abi) (code func p1 p2 : Nat) :
    argSetup (ABI_CallFunctionCC64 abi code func p1 p2) =
      ABI_AlignStack abi 0 false ++
        ([.movRI 32 (paramReg1 abi) p1, .movRI 32 (paramReg2 abi) p2] ++
          (if isFarCall func code then [.movRI 64 rax func] else [])) := by
  unfold ABI_CallFunctionCC64
  rw [List.append_assoc, List.append_assoc]
  rw [argSetup_append _ _ (align_noCall abi 0 false)]
  congr 1
  rw [argSetup_append _ _ (by
    intro i hi
    simp at hi
    rcases hi with h | h <;> (rw [h]; rfl))]
  rw [argSetup_callTail]

theorem exec_CC64_gpr (abi : Abi) (code func p1 p2 : Nat) (s : MState)
    (hP : paramReg1 abi ≠ paramReg2 abi)
    (hr1 : paramReg1 abi ≠ rax) (hr2 : paramReg2 abi ≠ rax) :
    (exec abi (argSetup (ABI_CallFunctionCC64 abi code func p1 p2)) s).gpr
        (paramReg1 abi) = p1 % 2 ^ 32 ∧
    (exec abi (argSetup (ABI_CallFunctionCC64 abi code func p1 p2)) s).gpr
        (paramReg2 abi) = p2 % 2 ^ 32 := by
  rw [argSetup_CC64 abi code func p1 p2, exec_append, exec_append]
  set s1 := exec abi (ABI_AlignStack abi 0 false) s with hs1
  have hgpr2 : (exec abi [Instr.movRI 32 (paramReg1 abi) p1,
      Instr.movRI 32 (paramReg2 abi) p2] s1).gpr =
      updF (updF s1.gpr (paramReg1 abi) (p1 % 2 ^ 32)) (paramReg2 abi) (p2 % 2 ^ 32) := by
    simp only [exec_cons, exec_nil, step]
  by_cases hfar : isFarCall func code = true
  · rw [if_pos hfar, exec_cons, exec_nil]
    simp only [step]
    rw [hgpr2]
    constructor
    · rw [updF_ne _ _ hr1, updF_ne _ _ hP, updF_at]
    · rw [updF_ne _ _ hr2, updF_at]
  · rw [if_neg hfar, exec_nil, hgpr2]
    constructor
    · rw [updF_ne _ _ hP, updF_at]
    · rw [updF_at]

/-- C7: `ABI_CallFunctionCC(func, param1, param2)` on the stack-passing
32-bit convention pushes `param2` before `param1`, so at the call `param1`
sits at the stack pointer (the lowest/first argument slot) and `param2`
four bytes above; on the register-passing 64-bit convention, at the call
`ABI_PARAM1` holds `param1` and `ABI_PARAM2` holds `param2`. -/
theorem ABI_CallFunctionCC_argument_order (code func p1 p2 : Nat) (s : MState) :
    ((exec .win32 (argSetup (ABI_CallFunctionCC32 .win32 func p1 p2)) s).mem
        (exec .win32 (argSetup (ABI_CallFunctionCC32 .win32 func p1 p2)) s).rsp = p1 % 2 ^ 32 ∧
     (exec .win32 (argSetup (ABI_CallFunctionCC32 .win32 func p1 p2)) s).mem
        ((exec .win32 (argSetup (ABI_CallFunctionCC32 .win32 func p1 p2)) s).rsp + 4) = p2 % 2 ^ 32) ∧
    ((exec .unix32 (argSetup (ABI_CallFunctionCC32 .unix32 func p1 p2)) s).mem
        (exec .unix32 (argSetup (ABI_CallFunctionCC32 .unix32 func p1 p2)) s).rsp = p1 % 2 ^ 32 ∧
     (exec .unix32 (argSetup (ABI_CallFunctionCC32 .unix32 func p1 p2)) s).mem
        ((exec .unix32 (argSetup (ABI_CallFunctionCC32 .unix32 func p1 p2)) s).rsp + 4) = p2 % 2 ^ 32) ∧
    ((exec .win64 (argSetup (ABI_CallFunctionCC64 .win64 code func p1 p2)) s).gpr
        (paramReg1 .win64) = p1 % 2 ^ 32 ∧
     (exec .win64 (argSetup (ABI_CallFunctionCC64 .win64 code func p1 p2)) s).gpr
        (paramReg2 .win64) = p2 % 2 ^ 32) ∧
    ((exec .unix64 (argSetup (ABI_CallFunctionCC64 .unix64 code func p1 p2)) s).gpr
        (paramReg1 .unix64) = p1 % 2 ^ 32 ∧
     (exec .unix64 (argSetup (ABI_CallFunctionCC64 .unix64 code func p1 p2)) s).gpr
        (paramReg2 .unix64) = p2 % 2 ^ 32) :=
  ⟨exec_CC32_mem .win32 func p1 p2 s,
   exec_CC32_mem .unix32 func p1 p2 s,
   exec_CC64_gpr .win64 code func p1 p2 s (by decide) (by decide) (by decide),
   exec_CC64_gpr .unix64 code func p1 p2 s (by decide) (by decide) (by decide)⟩

theorem argSetup_CF64 (abi : Abi) (code func : Nat) :
    argSetup (ABI_CallFunction64 abi code func) =
      ABI_AlignStack abi 0 false ++
        (if isFarCall func code then [.movRI 64 rax func] else []) := by
  unfold ABI_CallFunction64
  rw [List.append_assoc, argSetup_append _ _ (align_noCall abi 0 false)]
  rw [argSetup_callTail]

/-- C10: when the far path is taken, every modelled 64-bit call emitter
(`ABI_CallFunction` and `ABI_CallFunctionRR`, which share the same call
tail) overwrites RAX with the absolute target address before the call:
after the pre-call instructions RAX holds the target regardless of its
previous contents, the emitted call is the indirect `CALLptr RAX`, and no
direct call is emitted. -/
theorem farCall_overwrites_rax (abi : Abi) (code func : Nat) (reg1 reg2 : Fin 16)
    (np : Bool) (s : MState) (hfar : isFarCall func code = true) :
    ((exec abi (argSetup (ABI_CallFunction64 abi code func)) s).gpr rax = func % 2 ^ 64 ∧
     Instr.callPtr rax ∈ ABI_CallFunction64 abi code func ∧
     ∀ t, Instr.callDirect t ∉ ABI_CallFunction64 abi code func) ∧
    ((exec abi (argSetup (ABI_CallFunctionRR64 abi code func reg1 reg2 np)) s).gpr rax =
        func % 2 ^ 64 ∧
     Instr.callPtr rax ∈ ABI_CallFunctionRR64 abi code func reg1 reg2 np ∧
     ∀ t, Instr.callDirect t ∉ ABI_CallFunctionRR64 abi code func reg1 reg2 np) := by
  have htail : callTail func code = [.movRI 64 rax func, .callPtr rax] := by
    rw [callTail, if_pos hfar]
  refine ⟨⟨?_, ?_, ?_⟩, ⟨?_, ?_, ?_⟩⟩
  · rw [argSetup_CF64, exec_append, if_pos hfar, exec_cons, exec_nil]
    simp only [step]
    rw [updF_at]
  · unfold ABI_CallFunction64
    rw [htail]
    simp
  · intro t hmem
    unfold ABI_CallFunction64 at hmem
    rw [htail] at hmem
    simp at hmem
    rcases hmem with h | h
    · have := align_noCall abi 0 false _ h
      simp [Instr.isCall] at this
    · have := restore_noCall abi 0 false _ h
      simp [Instr.isCall] at this
  · have hsetup : argSetup (ABI_CallFunctionRR64 abi code func reg1 reg2 np) =
        ABI_AlignStack abi 0 np ++
          (movesRR (paramReg1 abi) (paramReg2 abi) reg1 reg2 ++
            (if isFarCall func code then [.movRI 64 rax func] else [])) := by
      unfold ABI_CallFunctionRR64
      rw [List.append_assoc, List.append_assoc]
      rw [argSetup_append _ _ (align_noCall abi 0 np)]
      rw [argSetup_append _ _ (movesRR_noCall _ _ _ _)]
      rw [argSetup_callTail]
    rw [hsetup, exec_append, exec_append, if_pos hfar, exec_cons, exec_nil]
    simp only [step]
    rw [updF_at]
  · unfold ABI_CallFunctionRR64
    rw [htail]
    simp
  · intro t hmem
    unfold ABI_CallFunctionRR64 at hmem
    rw [htail] at hmem
    rw [List.mem_append] at hmem
    rcases hmem with h | hmem
    · rw [List.mem_append] at h
      rcases h with h | h
      · rw [List.mem_append] at h
        rcases h with h | h
        · have h2 := align_noCall abi 0 np _ h
          simp [Instr.isCall] at h2
        · have h2 := movesRR_noCall (paramReg1 abi) (paramReg2 abi) reg1 reg2 _ h
          simp [Instr.isCall] at h2
      · simp at h
    · have h2 := restore_noCall abi 0 np _ hmem
      simp [Instr.isCall] at h2

/-- Witness for `farCall_overwrites_rax`: a target `2^32` bytes away from
code emitted at a low address takes the far path and leaves RAX holding
the target address. -/
theorem farCall_overwrites_rax_witness :
    (exec .unix64 (argSetup (ABI_CallFunction64 .unix64 0 0x100000000))
      ⟨fun r => (r : Nat), fun _ => 0, 0, fun _ => 0⟩).gpr rax = 0x100000000 % 2 ^ 64 :=
  (farCall_overwrites_rax .unix64 0 0x100000000 1 2 false
    ⟨fun r => (r : Nat), fun _ => 0, 0, fun _ => 0⟩ (by decide)).1.1

end X64ABI
